import Mathlib

/-!
Verification of the orchestration core of the financial-agent repository.

The embedding translates, from the TypeScript source:
  * the `ExecutionStep` / `ExecutionPlan` data model (`src/type.ts`),
  * `IntegratedCryptoAnalyzer.normalizeSymbol`, `executeStep`,
    `shouldContinueExecution` and the `planExecution` fallback plan
    (`src/crypto-analyzer-fixed.ts`, the workflow file),
  * the LangGraph loop `execute_step → (analyze_data | execute_step |
    synthesize_results)` built in `buildGraph`,
  * `CryptoAnalyzer.synthesizeResults` (`src/analyzer.ts`),
  * `MCPClient.listTools` (`src/clients/mcp-client.ts`) and
    `MCPClientManager.getClient` / `healthCheck`
    (`src/clients/mcp-client-manager.ts`).

JavaScript exceptions are modelled by `JsResult`: a `try`/`catch` becomes a
`match` on a `JsResult`-valued computation.  External collaborators (the MCP
tool call performed by a step, the LLM chat/parse pipeline, the SDK-level
RPCs of a client) are modelled as explicit outcome parameters: the functions
under verification are quantified over every possible collaborator outcome.
-/

/-- Outcome of a JavaScript computation: either a normally returned value or
a thrown exception carrying its message. -/
inductive JsResult (α : Type) where
  | thrown (msg : String)
  | value (v : α)
deriving DecidableEq, Repr

/-- JS `Map.set` / object-spread override on a string-keyed association list:
replaces the value at an existing key in place, otherwise appends. -/
def mapSet {α : Type} : List (String × α) → String → α → List (String × α)
  | [], k, v => [(k, v)]
  | (k', v') :: rest, k, v =>
      if k' = k then (k, v) :: rest else (k', v') :: mapSet rest k v

/-- The `mcpServer` enumeration of the `ExecutionStep` interface
(`'crypto' | 'news' | 'stock'`). -/
inductive McpServerKind where
  | crypto
  | news
  | stock
deriving DecidableEq, Repr

/-- The `analysisType` enumeration of the `ExecutionPlan` interface. -/
inductive AnalysisType where
  | technical
  | fundamental
  | sentiment
  | comprehensive
deriving DecidableEq, Repr

/-- Text payload of a step-result content item.  A tool returns free text;
the `catch` branch of `executeStep` stores
`JSON.stringify` of the record built from the error message, the step target
symbol and its normalization.  The stringified record is kept structured
(the encoding is injective, and nothing in the program re-parses it). -/
inductive JsonText where
  | plain (s : String)
  | stringifyError (error targetSymbol normalizedSymbol : String)
deriving DecidableEq, Repr

/-- One item of a tool result `content` array. -/
structure ContentItem where
  type : String
  text : JsonText
deriving DecidableEq, Repr

/-- `ExecutionStep` of `src/type.ts`: id, toolName, parameters, description,
completed, optional result, optional mcpServer, targetSymbol.  Parameter
values are strings (the only values the program ever puts there). -/
structure ExecutionStep where
  id : String
  toolName : String
  parameters : List (String × String)
  description : String
  completed : Bool
  result : Option (List ContentItem)
  mcpServer : Option McpServerKind
  targetSymbol : String
deriving DecidableEq, Repr

/-- `ExecutionPlan` of `src/type.ts`. -/
structure ExecutionPlan where
  steps : List ExecutionStep
  analysisType : AnalysisType
  priority : Int
deriving DecidableEq, Repr

/-- The slice of `CryptoAnalysisState` that the execution loop reads and
writes: the plan and the current step index (`currentStep` starts at 0 and
is only ever incremented, so it is a natural number). -/
structure OrchestratorState where
  executionPlan : ExecutionPlan
  currentStep : Nat
deriving DecidableEq, Repr

/-- `SYMBOL_MAPPING` of the workflow file: alias → CoinGecko identifier. -/
def SYMBOL_MAPPING : List (String × String) :=
  [("BTC", "bitcoin"), ("BITCOIN", "bitcoin"),
   ("ETH", "ethereum"), ("ETHEREUM", "ethereum"),
   ("ADA", "cardano"), ("CARDANO", "cardano"),
   ("SOL", "solana"), ("SOLANA", "solana"),
   ("BNB", "binancecoin"), ("BINANCE", "binancecoin"),
   ("XRP", "ripple"), ("RIPPLE", "ripple"),
   ("DOGE", "dogecoin"), ("DOGECOIN", "dogecoin"),
   ("DOT", "polkadot"), ("POLKADOT", "polkadot"),
   ("AVAX", "avalanche-2"), ("AVALANCHE", "avalanche-2"),
   ("LINK", "chainlink"), ("CHAINLINK", "chainlink"),
   ("MATIC", "polygon"), ("POLYGON", "polygon"),
   ("UNI", "uniswap"), ("UNISWAP", "uniswap"),
   ("LTC", "litecoin"), ("LITECOIN", "litecoin")]

/-- JS `String.prototype.toUpperCase` on the ASCII alphabet the program uses
(character-wise upper-casing; kernel-reducible, unlike `String.toUpper`). -/
def jsToUpper (s : String) : String := ⟨s.data.map Char.toUpper⟩

/-- JS `String.prototype.toLowerCase` on the ASCII alphabet the program uses. -/
def jsToLower (s : String) : String := ⟨s.data.map Char.toLower⟩

/-- `IntegratedCryptoAnalyzer.normalizeSymbol`: look the upper-cased symbol
up in `SYMBOL_MAPPING`; on a miss fall back to the lower-cased input. -/
def normalizeSymbol (symbol : String) : String :=
  let upperSymbol := jsToUpper symbol
  match SYMBOL_MAPPING.lookup upperSymbol with
  | some normalized => normalized
  | none => jsToLower symbol

/-- `IntegratedCryptoAnalyzer.executeStep`, as a function of the outcome of
the one external call it makes (`mcpManager.executeTool`, which either
returns a `content` array or throws).  Both the `try` and the `catch` branch
of the source return a state normally, which is why the codomain is
`OrchestratorState` and not `JsResult OrchestratorState`. -/
def executeStep (toolOutcome : JsResult (List ContentItem))
    (state : OrchestratorState) : OrchestratorState :=
  let executionPlan := state.executionPlan
  let currentStep := state.currentStep
  if h : currentStep < executionPlan.steps.length then
    let step := executionPlan.steps.get ⟨currentStep, h⟩
    -- try branch: serverName, normalizedSymbol and the parameter map are
    -- computed before the tool call; none of these computations can throw.
    let _serverName := step.mcpServer.getD McpServerKind.crypto
    let normalizedSymbol := normalizeSymbol step.targetSymbol
    let _parameters : List (String × String) :=
      if step.toolName = "search_news" then
        [("query", step.targetSymbol ++ " cryptocurrency news"),
         ("symbol", step.targetSymbol)]
      else
        mapSet step.parameters "symbol" normalizedSymbol
    match toolOutcome with
    | JsResult.value content =>
        let updatedSteps := executionPlan.steps.set currentStep
          { step with completed := true, result := some content }
        { executionPlan := { executionPlan with steps := updatedSteps },
          currentStep := currentStep + 1 }
    | JsResult.thrown msg =>
        -- catch branch: store the error as the step result, still mark the
        -- step completed, still advance.
        let errorItem : ContentItem :=
          { type := "text",
            text := JsonText.stringifyError msg step.targetSymbol normalizedSymbol }
        let updatedSteps := executionPlan.steps.set currentStep
          { step with completed := true, result := some [errorItem] }
        { executionPlan := { executionPlan with steps := updatedSteps },
          currentStep := currentStep + 1 }
  else
    -- early return: `{ currentStep }` leaves the state unchanged
    state

/-- `IntegratedCryptoAnalyzer.shouldContinueExecution`.  The source indexes
`steps[currentStep - 1]`; in JavaScript `currentStep - 1` is `-1` when
`currentStep = 0`, an index at which no step exists. -/
def shouldContinueExecution (state : OrchestratorState) : String :=
  let executionPlan := state.executionPlan
  let currentStep := state.currentStep
  if currentStep ≥ executionPlan.steps.length then
    "done"
  else
    let currentStepInfo : Option ExecutionStep :=
      match currentStep with
      | 0 => none
      | n + 1 => executionPlan.steps[n]?
    match currentStepInfo with
    | some stepInfo => if stepInfo.completed then "continue" else "next_step"
    | none => "next_step"

/-- The price step `planExecution` pushes for one symbol at one index when
planning fails. -/
def priceStepFor (symbol : String) (index : Nat) : ExecutionStep :=
  { id := "price_" ++ symbol ++ "_" ++ toString index,
    toolName := "get_crypto_price",
    parameters := [("symbol", normalizeSymbol symbol)],
    description := symbol ++ "の価格データを取得",
    completed := false,
    result := none,
    mcpServer := some McpServerKind.crypto,
    targetSymbol := symbol }

/-- The market-data step of the fallback plan. -/
def marketStepFor (symbol : String) (index : Nat) : ExecutionStep :=
  { id := "market_" ++ symbol ++ "_" ++ toString index,
    toolName := "get_market_data",
    parameters := [("symbol", normalizeSymbol symbol)],
    description := symbol ++ "の市場データを取得",
    completed := false,
    result := none,
    mcpServer := some McpServerKind.crypto,
    targetSymbol := symbol }

/-- The news-search step of the fallback plan. -/
def newsStepFor (symbol : String) (index : Nat) : ExecutionStep :=
  { id := "news_" ++ symbol ++ "_" ++ toString index,
    toolName := "search_news",
    parameters := [("query", symbol ++ " cryptocurrency news")],
    description := symbol ++ "のニュースを検索",
    completed := false,
    result := none,
    mcpServer := some McpServerKind.news,
    targetSymbol := symbol }

/-- The three fallback steps `planExecution` pushes for one symbol at one
index when planning fails: a price step, a market-data step and a
news-search step, in this order. -/
def fallbackStepsFor (symbol : String) (index : Nat) : List ExecutionStep :=
  [priceStepFor symbol index, marketStepFor symbol index, newsStepFor symbol index]

/-- The fallback plan that the `catch` branch of
`IntegratedCryptoAnalyzer.planExecution` builds when the Planner output
cannot be parsed: `symbols.forEach((symbol, index) => push three steps)`,
with the documented defaults for `analysisType` and `priority`. -/
def fallbackPlan (symbols : List String) : ExecutionPlan :=
  { steps := symbols.enum.flatMap fun p => fallbackStepsFor p.2 p.1,
    analysisType := AnalysisType.comprehensive,
    priority := 3 }

/-- Nodes of the compiled LangGraph that the execution loop visits once the
plan exists.  `buildGraph` wires `plan_execution → execute_step`, the
conditional edges
`execute_step → (analyze_data | execute_step | synthesize_results)`,
`analyze_data → execute_step` and `synthesize_results → END`. -/
inductive GraphNode where
  | executeNode
  | analyzeNode
  | synthesizeNode
  | doneNode
deriving DecidableEq, Repr

/-- One fuel-bounded run of the execution loop, counting invocations of the
`execute_step` node.  `env i` is the outcome of the MCP tool call the step
issues when invoked with `currentStep = i` (`analyze_data` never changes
`executionPlan` or `currentStep`, so it is a no-op here).  Returns `none` if
the fuel runs out before `END` is reached. -/
def runLoop (env : Nat → JsResult (List ContentItem)) :
    Nat → GraphNode → OrchestratorState → Nat → Option (Nat × OrchestratorState)
  | 0, _, _, _ => none
  | fuel + 1, node, state, execCount =>
    match node with
    | GraphNode.executeNode =>
        let nextState := executeStep (env state.currentStep) state
        let decision := shouldContinueExecution nextState
        let nextNode :=
          if decision = "continue" then GraphNode.analyzeNode
          else if decision = "next_step" then GraphNode.executeNode
          else GraphNode.synthesizeNode
        runLoop env fuel nextNode nextState (execCount + 1)
    | GraphNode.analyzeNode => runLoop env fuel GraphNode.executeNode state execCount
    | GraphNode.synthesizeNode => runLoop env fuel GraphNode.doneNode state execCount
    | GraphNode.doneNode => some (execCount, state)

/-- One `MCPClient` of `src/clients/mcp-client.ts` as the manager sees it:
its name and the outcome of the SDK-level `client.listTools()` RPC (the
behavior of the external subprocess behind the transport). -/
structure ManagedClient where
  serverName : String
  rpcListTools : JsResult (List String)
deriving DecidableEq, Repr

/-- `MCPClient.listTools` of `src/clients/mcp-client.ts`: forwards the SDK
call, but catches any error and returns `[]`.  So it never throws — the
`thrown` constructor never appears in its range. -/
def MCPClient.listTools (c : ManagedClient) : JsResult (List String) :=
  match c.rpcListTools with
  | JsResult.value tools => JsResult.value tools
  | JsResult.thrown _ => JsResult.value []

/-- Registry state of `MCPClientManager`
(`src/clients/mcp-client-manager.ts`): the `clients` map in insertion order
and the `isShuttingDown` flag. -/
structure ManagerState where
  clients : List (String × ManagedClient)
  isShuttingDown : Bool
deriving DecidableEq, Repr

/-- Environment of one fresh connection attempt inside `getClient`: the
future RPC behavior of the client built by `new MCPClient(serverName)`, and
whether `MCPClient.connect()` returns `true`. -/
structure ConnectEnv where
  freshRpcListTools : JsResult (List String)
  connectOk : Bool
deriving DecidableEq, Repr

/-- JS `Map.delete` inside `MCPClientManager.disconnectClient`: the entry is
removed whether or not `disconnect()` reports an error (the source deletes
in the `try` branch and again in the `catch` branch). -/
def MCPClientManager.disconnectClient (st : ManagerState) (serverName : String) :
    ManagerState :=
  { st with clients := st.clients.filter fun nc => nc.1 != serverName }

/-- Lines 28-36 of `getClient`: construct a client, attempt the connection,
throw without registering on failure, register on success.  The third
component counts connection attempts (`new MCPClient` + `connect()`),
i.e. fresh transport setups. -/
def MCPClientManager.connectNew (env : ConnectEnv) (st : ManagerState)
    (serverName : String) : JsResult ManagedClient × ManagerState × Nat :=
  let client : ManagedClient :=
    { serverName := serverName, rpcListTools := env.freshRpcListTools }
  if env.connectOk then
    (JsResult.value client,
     { st with clients := mapSet st.clients serverName client }, 1)
  else
    (JsResult.thrown ("Failed to connect to " ++ serverName), st, 1)

/-- `MCPClientManager.getClient`.  Returns the call outcome, the registry
state after the call, and the number of fresh connection attempts made. -/
def MCPClientManager.getClient (env : ConnectEnv) (st : ManagerState)
    (serverName : String) : JsResult ManagedClient × ManagerState × Nat :=
  if st.isShuttingDown then
    (JsResult.thrown "Manager is shutting down", st, 0)
  else
    match st.clients.lookup serverName with
    | some existingClient =>
        -- try { await existingClient.listTools(); return existingClient }
        -- catch { await this.disconnectClient(serverName) } — and fall
        -- through to a fresh connection attempt.
        (match MCPClient.listTools existingClient with
         | JsResult.value _ => (JsResult.value existingClient, st, 0)
         | JsResult.thrown _ =>
             MCPClientManager.connectNew env
               (MCPClientManager.disconnectClient st serverName) serverName)
    | none => MCPClientManager.connectNew env st serverName

/-- `MCPClientManager.healthCheck`: for every registered client, probe it
with `client.listTools()` inside a `try`/`catch` and record `true` on
normal return, `false` on a throw.  The registry itself is not touched, so
the second component (the post-state) is the input state. -/
def MCPClientManager.healthCheck (st : ManagerState) :
    List (String × Bool) × ManagerState :=
  (st.clients.map fun nc =>
    (nc.1,
     match MCPClient.listTools nc.2 with
     | JsResult.value _ => true
     | JsResult.thrown _ => false),
   st)

/-- The `recommendation` enumeration of `CryptoAnalysis`. -/
inductive Recommendation where
  | buy
  | sell
  | hold
deriving DecidableEq, Repr

/-- String rendering of a recommendation (JS interpolates the raw value). -/
def Recommendation.toText : Recommendation → String
  | Recommendation.buy => "buy"
  | Recommendation.sell => "sell"
  | Recommendation.hold => "hold"

/-- The fields of `CryptoAnalysis` that `synthesizeResults` computes with:
symbol, recommendation and confidence.  The remaining fields (price,
change24h, market cap, reasoning, …) are only interpolated into the LLM
prompt, which belongs to the externally-modelled chat call. -/
structure CryptoAnalysis where
  symbol : String
  recommendation : Recommendation
  confidence : ℚ
deriving DecidableEq, Repr

/-- The `overallSentiment` enumeration of `AnalysisSummary`. -/
inductive Sentiment where
  | bullish
  | bearish
  | neutral
deriving DecidableEq, Repr

/-- A JS `number` as `synthesizeResults` produces it: either `NaN` or an
actual (rational) value. -/
inductive JsNum where
  | nan
  | num (q : ℚ)
deriving DecidableEq, Repr

/-- JS division at the `avgConfidence` call site, where the numerator is a
sum over the list whose length is the denominator: a zero denominator
forces a zero numerator, and JS `0 / 0` is `NaN`.  (The `x / 0 = Infinity`
case with `x ≠ 0` cannot arise at this call site.) -/
def jsDiv (x y : ℚ) : JsNum :=
  if y = 0 then JsNum.nan else JsNum.num (x / y)

/-- Scaling of a JS number by a constant (`NaN * c = NaN`). -/
def JsNum.scale : JsNum → ℚ → JsNum
  | JsNum.nan, _ => JsNum.nan
  | JsNum.num q, c => JsNum.num (q * c)

/-- JS `Number.prototype.toFixed(0)` on the rationals that occur here
(round to the nearest integer; binary-float artifacts are out of scope of
the verified fields). -/
def jsToFixed0 (q : ℚ) : String := toString (round q)

/-- JS `Number.prototype.toFixed(1)` on a possibly-NaN value; only its
`NaN` branch matters to the claims, the numeric branch renders one decimal
digit for the nonnegative values that occur here. -/
def jsToFixed1 (j : JsNum) : String :=
  match j with
  | JsNum.nan => "NaN"
  | JsNum.num q =>
      let scaled : Int := round (q * 10)
      toString (scaled / 10) ++ "." ++ toString (scaled.natAbs % 10)

/-- `AnalysisSummary` of `src/type.ts` (the Synthesizer output). -/
structure AnalysisSummary where
  overallSentiment : Sentiment
  keyFindings : List String
  recommendations : List String
  summary : String
  confidenceScore : JsNum
deriving DecidableEq, Repr

/-- Outcome of the chat-and-parse pipeline inside
`CryptoAnalyzer.synthesizeResults` (lines 203-232 of `src/analyzer.ts`):
the `ollama.chat` call (or the prompt formatting before it) throws, or the
chat succeeds but `JSON.parse` / the Zod schema parse of its content
throws, or the merged-with-defaults, schema-validated summary is produced. -/
inductive SynthOutcome where
  | chatThrew (msg : String)
  | parseFailed
  | parsed (summary : AnalysisSummary)
deriving DecidableEq, Repr

/-- `CryptoAnalyzer.synthesizeResults` as a function of the pipeline
outcome.  Both `catch` branches of the source return a summary normally,
which is why the codomain is `AnalysisSummary` and not
`JsResult AnalysisSummary`. -/
def CryptoAnalyzer.synthesizeResults (outcome : SynthOutcome)
    (analysisResults : List CryptoAnalysis) : AnalysisSummary :=
  match outcome with
  | SynthOutcome.parsed summary => summary
  | SynthOutcome.parseFailed =>
      -- inner catch: deterministic aggregate over the analysis results
      let bullishCount :=
        (analysisResults.filter fun a => a.recommendation == Recommendation.buy).length
      let bearishCount :=
        (analysisResults.filter fun a => a.recommendation == Recommendation.sell).length
      let avgConfidence :=
        jsDiv (analysisResults.foldl (fun sum a => sum + a.confidence) 0)
          analysisResults.length
      { overallSentiment :=
          if bullishCount > bearishCount then Sentiment.bullish
          else if bearishCount > bullishCount then Sentiment.bearish
          else Sentiment.neutral,
        keyFindings := analysisResults.map fun a =>
          a.symbol ++ ": " ++ a.recommendation.toText ++ " (信頼度"
            ++ jsToFixed0 (a.confidence * 100) ++ "%)",
        recommendations :=
          ["市場動向を継続的に監視してください",
           "リスク管理を徹底し、適切なポジションサイズを維持してください",
           "分析した" ++ toString analysisResults.length ++ "銘柄の中で"
             ++ toString bullishCount ++ "銘柄が買い推奨、"
             ++ toString bearishCount ++ "銘柄が売り推奨です"],
        summary := toString analysisResults.length
          ++ "の暗号通貨を分析した結果、全体的な市場センチメントは"
          ++ (if bullishCount > bearishCount then "強気"
              else if bearishCount > bullishCount then "弱気" else "中立")
          ++ "です。平均信頼度は" ++ jsToFixed1 (avgConfidence.scale 100)
          ++ "%となっています。",
        confidenceScore := avgConfidence }
  | SynthOutcome.chatThrew _ =>
      -- outer catch: fixed fallback summary with confidence 0.5
      { overallSentiment := Sentiment.neutral,
        keyFindings := analysisResults.map fun a =>
          a.symbol ++ ": " ++ a.recommendation.toText,
        recommendations := ["詳細な分析は失敗しましたが、個別の推奨事項を参照してください"],
        summary := toString analysisResults.length
          ++ "銘柄の分析を実行しましたが、統合処理でエラーが発生しました。個別の分析結果を確認してください。",
        confidenceScore := JsNum.num (1 / 2) }

/-- A concrete execution step used to instantiate the theorems below. -/
def sampleStep : ExecutionStep :=
  { id := "price_BTC_0",
    toolName := "get_crypto_price",
    parameters := [("symbol", "bitcoin")],
    description := "BTCの価格データを取得",
    completed := false,
    result := none,
    mcpServer := some McpServerKind.crypto,
    targetSymbol := "BTC" }

/-- A second concrete execution step, targeting a different symbol. -/
def sampleStep2 : ExecutionStep :=
  { id := "market_ETH_1",
    toolName := "get_market_data",
    parameters := [("symbol", "ethereum")],
    description := "ETHの市場データを取得",
    completed := false,
    result := none,
    mcpServer := some McpServerKind.crypto,
    targetSymbol := "ETH" }

/-- A concrete two-step orchestrator state positioned at the first step. -/
def sampleState : OrchestratorState :=
  { executionPlan :=
      { steps := [sampleStep, sampleStep2],
        analysisType := AnalysisType.comprehensive,
        priority := 3 },
    currentStep := 0 }

/-- A concrete tool-call environment: every step invocation succeeds with an
empty content array. -/
def sampleEnv : Nat → JsResult (List ContentItem) := fun _ => JsResult.value []

/-- The initial orchestrator state over an empty plan (the default channel
value of `buildGraph`, and what `planExecution` yields for zero symbols). -/
def emptyPlanState : OrchestratorState :=
  { executionPlan :=
      { steps := [], analysisType := AnalysisType.comprehensive, priority := 3 },
    currentStep := 0 }

/-- A concrete healthy registered client. -/
def sampleClient : ManagedClient :=
  { serverName := "crypto-mcp-server",
    rpcListTools := JsResult.value ["get_crypto_price", "get_market_data"] }

/-- A concrete registry holding `sampleClient`. -/
def sampleManager : ManagerState :=
  { clients := [("crypto-mcp-server", sampleClient)], isShuttingDown := false }

/-- A registered client whose subprocess has been killed: its SDK-level
`listTools` RPC throws. -/
def deadClient : ManagedClient :=
  { serverName := "crypto-mcp-server",
    rpcListTools := JsResult.thrown "MCP error -32000: Connection closed" }

/-- A registry holding only the dead client. -/
def deadManager : ManagerState :=
  { clients := [("crypto-mcp-server", deadClient)], isShuttingDown := false }

/-- A connection environment whose handshake succeeds. -/
def okConnectEnv : ConnectEnv :=
  { freshRpcListTools := JsResult.value ["get_financial_news"], connectOk := true }

/-- A connection environment whose handshake fails. -/
def failConnectEnv : ConnectEnv :=
  { freshRpcListTools := JsResult.value [], connectOk := false }

/-! ## Helper lemmas -/

/-- The discovery probe of `src/clients/mcp-client.ts` can never throw: its
`catch` branch converts an RPC failure into an empty tool list. -/
lemma listTools_value (c : ManagedClient) :
    ∃ tools, MCPClient.listTools c = JsResult.value tools := by
  cases h : c.rpcListTools with
  | thrown msg => exact ⟨[], by simp [MCPClient.listTools, h]⟩
  | value tools => exact ⟨tools, by simp [MCPClient.listTools, h]⟩

/-- When the current index is in range, `executeStep` advances it by one,
whatever the tool call did. -/
lemma executeStep_currentStep (outcome : JsResult (List ContentItem))
    (s : OrchestratorState) (h : s.currentStep < s.executionPlan.steps.length) :
    (executeStep outcome s).currentStep = s.currentStep + 1 := by
  cases outcome <;> simp [executeStep, h]

/-- When the current index is out of range, `executeStep` is the identity. -/
lemma executeStep_out_of_range (outcome : JsResult (List ContentItem))
    (s : OrchestratorState) (h : ¬ s.currentStep < s.executionPlan.steps.length) :
    executeStep outcome s = s := by
  cases outcome <;> simp [executeStep, h]

/-- `executeStep` never changes the number of steps of the plan. -/
lemma executeStep_length (outcome : JsResult (List ContentItem))
    (s : OrchestratorState) :
    (executeStep outcome s).executionPlan.steps.length =
      s.executionPlan.steps.length := by
  by_cases h : s.currentStep < s.executionPlan.steps.length
  · cases outcome <;> simp [executeStep, h]
  · rw [executeStep_out_of_range _ _ h]

/-- After an in-range `executeStep`, the step it executed is marked
completed — on success and on captured failure alike. -/
lemma executeStep_marks_completed (outcome : JsResult (List ContentItem))
    (s : OrchestratorState) (h : s.currentStep < s.executionPlan.steps.length) :
    ∃ step, (executeStep outcome s).executionPlan.steps[s.currentStep]? = some step ∧
      step.completed = true := by
  cases outcome with
  | value content =>
      exact ⟨{ s.executionPlan.steps.get ⟨s.currentStep, h⟩ with
                 completed := true, result := some content },
             by simp [executeStep, h, List.getElem?_set_self], rfl⟩
  | thrown msg =>
      exact ⟨{ s.executionPlan.steps.get ⟨s.currentStep, h⟩ with
                 completed := true,
                 result := some [{ type := "text", text := JsonText.stringifyError msg (s.executionPlan.steps.get ⟨s.currentStep, h⟩).targetSymbol (normalizeSymbol (s.executionPlan.steps.get ⟨s.currentStep, h⟩).targetSymbol) }] },
             by simp [executeStep, h, List.getElem?_set_self], rfl⟩


/-- `executeStep` leaves every step other than the current one, and the
plan's `analysisType` and `priority`, untouched. -/
lemma executeStep_frame_aux (outcome : JsResult (List ContentItem))
    (s : OrchestratorState) :
    (executeStep outcome s).executionPlan.analysisType =
        s.executionPlan.analysisType ∧
      (executeStep outcome s).executionPlan.priority = s.executionPlan.priority ∧
      ∀ j, j ≠ s.currentStep →
        (executeStep outcome s).executionPlan.steps[j]? =
          s.executionPlan.steps[j]? := by
  by_cases h : s.currentStep < s.executionPlan.steps.length
  · cases outcome <;>
      exact ⟨by simp [executeStep, h], by simp [executeStep, h],
             fun j hj => by simp [executeStep, h, List.getElem?_set_ne (Ne.symm hj)]⟩
  · rw [executeStep_out_of_range _ _ h]
    exact ⟨rfl, rfl, fun _ _ => rfl⟩

/-! ## Claim theorems -/

/-- Claim C9.  Parameter normalization is a total function of the input
symbol (it cannot throw): when the upper-cased symbol is a key of
`SYMBOL_MAPPING` the canonical identifier is returned, and otherwise the
lower-cased copy of the input is returned. -/
theorem normalizeSymbol_total_with_fallback (symbol : String) :
    (∀ canonical, SYMBOL_MAPPING.lookup (jsToUpper symbol) = some canonical →
       normalizeSymbol symbol = canonical) ∧
    (SYMBOL_MAPPING.lookup (jsToUpper symbol) = none →
       normalizeSymbol symbol = jsToLower symbol) := by
  constructor
  · intro canonical hc
    simp [normalizeSymbol, hc]
  · intro hn
    simp [normalizeSymbol, hn]

/-- Witness for C9: the known alias BtC maps to bitcoin, the unknown alias
Shiba maps to its lower-cased copy. -/
theorem normalizeSymbol_total_with_fallback_witness :
    normalizeSymbol "BtC" = "bitcoin" ∧ normalizeSymbol "Shiba" = "shiba" :=
  ⟨(normalizeSymbol_total_with_fallback "BtC").1 "bitcoin" (by decide),
   (normalizeSymbol_total_with_fallback "Shiba").2 (by decide)⟩

/-- Claim C1.  When the current step is in range and the tool invocation
throws, `executeStep` returns normally (the `catch` branch of the source):
the executed step is marked completed, its result is the content array
holding the stringified error record (the error message as data), and
`currentStep` is incremented by one. -/
theorem executeStep_failure_is_data (msg : String) (s : OrchestratorState)
    (h : s.currentStep < s.executionPlan.steps.length) :
    (executeStep (JsResult.thrown msg) s).currentStep = s.currentStep + 1 ∧
    (executeStep (JsResult.thrown msg) s).executionPlan.steps[s.currentStep]? =
      some { s.executionPlan.steps.get ⟨s.currentStep, h⟩ with
               completed := true,
               result := some [{ type := "text", text := JsonText.stringifyError msg (s.executionPlan.steps.get ⟨s.currentStep, h⟩).targetSymbol (normalizeSymbol (s.executionPlan.steps.get ⟨s.currentStep, h⟩).targetSymbol) }] } := by
  refine ⟨executeStep_currentStep _ _ h, ?_⟩
  simp [executeStep, h, List.getElem?_set_self]

/-- Witness for C1 at a concrete two-step state whose tool call throws. -/
theorem executeStep_failure_is_data_witness :
    (executeStep (JsResult.thrown "fetch failed") sampleState).currentStep = 1 ∧
    (executeStep (JsResult.thrown "fetch failed") sampleState).executionPlan.steps[sampleState.currentStep]? =
      some { sampleStep with
               completed := true,
               result := some [{ type := "text", text := JsonText.stringifyError "fetch failed" "BTC" "bitcoin" }] } := by
  have h := executeStep_failure_is_data "fetch failed" sampleState (by decide)
  exact ⟨h.1, by rw [h.2]; decide⟩

/-- Claim C10.  `executeStep` is frame-bounded: whatever the tool outcome,
the number of steps, every step at an index other than `currentStep`, and
the plan's `analysisType` and `priority` are unchanged. -/
theorem executeStep_frame (outcome : JsResult (List ContentItem))
    (s : OrchestratorState) :
    (executeStep outcome s).executionPlan.steps.length =
        s.executionPlan.steps.length ∧
      (executeStep outcome s).executionPlan.analysisType =
        s.executionPlan.analysisType ∧
      (executeStep outcome s).executionPlan.priority = s.executionPlan.priority ∧
      ∀ j, j ≠ s.currentStep →
        (executeStep outcome s).executionPlan.steps[j]? =
          s.executionPlan.steps[j]? :=
  ⟨executeStep_length outcome s, executeStep_frame_aux outcome s⟩

/-- Witness for C10: at the concrete two-step state, executing step 0 leaves
step 1 untouched field for field. -/
theorem executeStep_frame_witness :
    (executeStep (JsResult.value []) sampleState).executionPlan.steps[1]? =
      some sampleStep2 := by
  have h := (executeStep_frame (JsResult.value []) sampleState).2.2.2 1 (by decide)
  rw [h]; decide

/-- The transition function returns the done label whenever the index is at
or past the end of the plan. -/
lemma shouldContinue_done_of (s : OrchestratorState)
    (h : s.currentStep ≥ s.executionPlan.steps.length) :
    shouldContinueExecution s = "done" := by
  simp [shouldContinueExecution, h]

/-- At index 0 (below the end) there is no previous step, so the transition
is the next-step label. -/
lemma shouldContinue_at_zero (s : OrchestratorState)
    (h0 : s.currentStep = 0)
    (hlt : s.currentStep < s.executionPlan.steps.length) :
    shouldContinueExecution s = "next_step" := by
  simp only [shouldContinueExecution]
  rw [if_neg (show ¬ s.currentStep ≥ s.executionPlan.steps.length by omega), h0]

/-- At a successor index below the end, the transition is decided by the
previous step entry. -/
lemma shouldContinue_at_succ (s : OrchestratorState) (n : Nat)
    (hn : s.currentStep = n + 1)
    (hlt : s.currentStep < s.executionPlan.steps.length) :
    shouldContinueExecution s =
      match s.executionPlan.steps[n]? with
      | some stepInfo => if stepInfo.completed then "continue" else "next_step"
      | none => "next_step" := by
  simp only [shouldContinueExecution]
  rw [if_neg (show ¬ s.currentStep ≥ s.executionPlan.steps.length by omega), hn]

/-- Claim C3.  The transition function returns the done label exactly when
`currentStep` is at or past the end of the plan; below the end it returns
the continue label exactly when the step at JS index `currentStep - 1`
exists (so `currentStep > 0`) and is marked completed, and the next-step
label otherwise. -/
theorem shouldContinueExecution_trichotomy (s : OrchestratorState) :
    (shouldContinueExecution s = "done" ↔
       s.currentStep ≥ s.executionPlan.steps.length) ∧
    (s.currentStep < s.executionPlan.steps.length →
       (shouldContinueExecution s = "continue" ↔
         ∃ n step, s.currentStep = n + 1 ∧
           s.executionPlan.steps[n]? = some step ∧ step.completed = true)) ∧
    (s.currentStep < s.executionPlan.steps.length →
       ¬ (∃ n step, s.currentStep = n + 1 ∧
            s.executionPlan.steps[n]? = some step ∧ step.completed = true) →
       shouldContinueExecution s = "next_step") := by
  refine ⟨⟨?_, shouldContinue_done_of s⟩, ?_, ?_⟩
  · intro hd
    by_contra hge
    push_neg at hge
    cases hn : s.currentStep with
    | zero =>
        rw [shouldContinue_at_zero s hn hge] at hd
        exact absurd hd (by decide)
    | succ n =>
        rw [shouldContinue_at_succ s n hn hge] at hd
        revert hd
        cases hstep : s.executionPlan.steps[n]? with
        | none => intro hd; exact absurd hd (by decide)
        | some stepInfo =>
            cases hcb : stepInfo.completed with
            | true =>
                intro hd
                simp [hcb] at hd
                exact absurd hd (by decide)
            | false =>
                intro hd
                simp [hcb] at hd
                exact absurd hd (by decide)
  · intro hlt
    constructor
    · intro hcont
      cases hn : s.currentStep with
      | zero =>
          rw [shouldContinue_at_zero s hn hlt] at hcont
          exact absurd hcont (by decide)
      | succ n =>
          rw [shouldContinue_at_succ s n hn hlt] at hcont
          revert hcont
          cases hstep : s.executionPlan.steps[n]? with
          | none => intro hcont; exact absurd hcont (by decide)
          | some stepInfo =>
              cases hcb : stepInfo.completed with
              | true => intro _; exact ⟨n, stepInfo, rfl, hstep, hcb⟩
              | false =>
                  intro hcont
                  simp [hcb] at hcont
                  exact absurd hcont (by decide)
    · rintro ⟨n, stepInfo, hn, hstep, hc⟩
      rw [shouldContinue_at_succ s n hn hlt, hstep]
      simp [hc]
  · intro hlt hnot
    cases hn : s.currentStep with
    | zero => exact shouldContinue_at_zero s hn hlt
    | succ n =>
        rw [shouldContinue_at_succ s n hn hlt]
        cases hstep : s.executionPlan.steps[n]? with
        | none => rfl
        | some stepInfo =>
            cases hcb : stepInfo.completed with
            | true => exact absurd ⟨n, stepInfo, hn, hstep, hcb⟩ hnot
            | false => simp [hcb]

/-- Witness for C3: at the concrete two-step state the transition is the
next-step label, and after one completed step it is the continue label. -/
theorem shouldContinueExecution_trichotomy_witness :
    shouldContinueExecution sampleState = "next_step" ∧
    shouldContinueExecution
      { executionPlan :=
          { steps := [{ sampleStep with completed := true }, sampleStep2],
            analysisType := AnalysisType.comprehensive, priority := 3 },
        currentStep := 1 } = "continue" := by
  constructor
  · exact (shouldContinueExecution_trichotomy sampleState).2.2 (by decide)
      (by rintro ⟨n, stepInfo, hn, hstep, hc⟩
          exact absurd (show (0 : Nat) = n + 1 from hn) (by omega))
  · exact ((shouldContinueExecution_trichotomy _).2.1 (by decide)).2
      ⟨0, { sampleStep with completed := true }, rfl, by decide, rfl⟩


/-- Three fallback steps are generated per enumerated symbol. -/
lemma fallback_flatMap_length (symbols : List String) :
    ∀ n : Nat,
      ((symbols.enumFrom n).flatMap fun p => fallbackStepsFor p.2 p.1).length =
        3 * symbols.length := by
  induction symbols with
  | nil => intro n; rfl
  | cons s rest ih =>
      intro n
      rw [show (s :: rest).enumFrom n = (n, s) :: rest.enumFrom (n + 1) from rfl,
          List.flatMap_cons, List.length_append, ih (n + 1)]
      show 3 + 3 * rest.length = 3 * (rest.length + 1)
      omega

/-- The three fallback steps of the symbol at position `k` sit at offsets
`3k`, `3k+1`, `3k+2` and carry the enumeration index `n + k`: a price step,
a market-data step and a news-search step, in that order. -/
lemma fallback_flatMap_triple (symbols : List String) :
    ∀ (n k : Nat) (sym : String), symbols[k]? = some sym →
      (((symbols.enumFrom n).flatMap fun p => fallbackStepsFor p.2 p.1)[3 * k]? =
         some (priceStepFor sym (n + k))) ∧
      (((symbols.enumFrom n).flatMap fun p => fallbackStepsFor p.2 p.1)[3 * k + 1]? =
         some (marketStepFor sym (n + k))) ∧
      (((symbols.enumFrom n).flatMap fun p => fallbackStepsFor p.2 p.1)[3 * k + 2]? =
         some (newsStepFor sym (n + k))) := by
  induction symbols with
  | nil => intro n k sym h; simp at h
  | cons s rest ih =>
      intro n k sym h
      have e0 : ((s :: rest).enumFrom n).flatMap (fun p => fallbackStepsFor p.2 p.1) =
          fallbackStepsFor s n ++
            (rest.enumFrom (n + 1)).flatMap (fun p => fallbackStepsFor p.2 p.1) := by
        simp [List.enumFrom]
      have hlen3 : (fallbackStepsFor s n).length = 3 := rfl
      cases k with
      | zero =>
          have hs : s = sym := by simpa using h
          subst hs
          refine ⟨?_, ?_, ?_⟩ <;> rw [e0] <;> simp [fallbackStepsFor]
      | succ k' =>
          have h' : rest[k']? = some sym := by simpa using h
          obtain ⟨h0, h1, h2⟩ := ih (n + 1) k' sym h'
          have hge0 : (fallbackStepsFor s n).length ≤ 3 * (k' + 1) := by
            rw [hlen3]; omega
          have hge1 : (fallbackStepsFor s n).length ≤ 3 * (k' + 1) + 1 := by
            rw [hlen3]; omega
          have hge2 : (fallbackStepsFor s n).length ≤ 3 * (k' + 1) + 2 := by
            rw [hlen3]; omega
          refine ⟨?_, ?_, ?_⟩
          · rw [e0, List.getElem?_append_right hge0, hlen3,
               show 3 * (k' + 1) - 3 = 3 * k' from by omega,
               show n + (k' + 1) = n + 1 + k' from by omega]
            exact h0
          · rw [e0, List.getElem?_append_right hge1, hlen3,
               show 3 * (k' + 1) + 1 - 3 = 3 * k' + 1 from by omega,
               show n + (k' + 1) = n + 1 + k' from by omega]
            exact h1
          · rw [e0, List.getElem?_append_right hge2, hlen3,
               show 3 * (k' + 1) + 2 - 3 = 3 * k' + 2 from by omega,
               show n + (k' + 1) = n + 1 + k' from by omega]
            exact h2

/-- Claim C5.  The fallback plan built when the Planner output cannot be
parsed is deterministic: it has exactly three steps per target symbol —
for the symbol at position `k`, a price step, a market-data step and a
news-search step at offsets `3k`, `3k+1`, `3k+2` — it carries the
documented defaults `comprehensive` and priority 3, and it is non-empty
whenever the extracted symbol list is non-empty (no dependency on the
Planner succeeding). -/
theorem fallbackPlan_structure (symbols : List String) :
    ((fallbackPlan symbols).steps.length = 3 * symbols.length) ∧
    ((fallbackPlan symbols).analysisType = AnalysisType.comprehensive) ∧
    ((fallbackPlan symbols).priority = 3) ∧
    (symbols ≠ [] → (fallbackPlan symbols).steps ≠ []) ∧
    (∀ (k : Nat) (sym : String), symbols[k]? = some sym →
       (fallbackPlan symbols).steps[3 * k]? = some (priceStepFor sym k) ∧
       (fallbackPlan symbols).steps[3 * k + 1]? = some (marketStepFor sym k) ∧
       (fallbackPlan symbols).steps[3 * k + 2]? = some (newsStepFor sym k)) := by
  have hlen : (fallbackPlan symbols).steps.length = 3 * symbols.length :=
    fallback_flatMap_length symbols 0
  refine ⟨hlen, rfl, rfl, ?_, ?_⟩
  · intro hne hempty
    apply hne
    have h0 : 3 * symbols.length = 0 := by
      rw [← hlen, hempty]
      rfl
    have hz : symbols.length = 0 := by omega
    exact List.length_eq_zero.mp hz
  · intro k sym h
    obtain ⟨h0, h1, h2⟩ := fallback_flatMap_triple symbols 0 k sym h
    exact ⟨by simpa using h0, by simpa using h1, by simpa using h2⟩

/-- Witness for C5 at the concrete symbol list BTC, ETH: six steps, and the
second symbol's price step sits at offset 3 with index 1. -/
theorem fallbackPlan_structure_witness :
    (fallbackPlan ["BTC", "ETH"]).steps.length = 6 ∧
    (fallbackPlan ["BTC", "ETH"]).steps ≠ [] ∧
    (fallbackPlan ["BTC", "ETH"]).steps[3]? = some (priceStepFor "ETH" 1) :=
  ⟨(fallbackPlan_structure ["BTC", "ETH"]).1,
   (fallbackPlan_structure ["BTC", "ETH"]).2.2.2.1 (by decide),
   by
     have h := ((fallbackPlan_structure ["BTC", "ETH"]).2.2.2.2 1 "ETH" (by decide)).1
     simpa using h⟩


/-- Unfolding of one `execute_step` iteration of the loop. -/
lemma runLoop_exec_step (env : Nat → JsResult (List ContentItem)) (fuel : Nat)
    (s : OrchestratorState) (count : Nat) :
    runLoop env (fuel + 1) GraphNode.executeNode s count =
      runLoop env fuel
        (if shouldContinueExecution (executeStep (env s.currentStep) s) = "continue"
         then GraphNode.analyzeNode
         else if shouldContinueExecution (executeStep (env s.currentStep) s) = "next_step"
         then GraphNode.executeNode
         else GraphNode.synthesizeNode)
        (executeStep (env s.currentStep) s) (count + 1) := rfl

/-- `analyze_data` goes straight back to `execute_step` without touching the
plan or the index. -/
lemma runLoop_analyze_step (env : Nat → JsResult (List ContentItem)) (fuel : Nat)
    (s : OrchestratorState) (count : Nat) :
    runLoop env (fuel + 1) GraphNode.analyzeNode s count =
      runLoop env fuel GraphNode.executeNode s count := rfl

/-- From `synthesize_results` the run reaches `END` in two ticks. -/
lemma runLoop_synth (env : Nat → JsResult (List ContentItem)) (fuel : Nat)
    (s : OrchestratorState) (count : Nat) :
    runLoop env (fuel + 1 + 1) GraphNode.synthesizeNode s count = some (count, s) := rfl

/-- After an in-range `executeStep`, the transition is done when the new
index reached the end, and continue otherwise (the executed step is always
marked completed, so next-step is never chosen here). -/
lemma shouldContinue_after_exec (outcome : JsResult (List ContentItem))
    (s : OrchestratorState) (h : s.currentStep < s.executionPlan.steps.length) :
    shouldContinueExecution (executeStep outcome s) =
      if s.executionPlan.steps.length ≤ s.currentStep + 1 then "done"
      else "continue" := by
  have hcs : (executeStep outcome s).currentStep = s.currentStep + 1 :=
    executeStep_currentStep outcome s h
  have hlen : (executeStep outcome s).executionPlan.steps.length =
      s.executionPlan.steps.length := executeStep_length outcome s
  by_cases hend : s.executionPlan.steps.length ≤ s.currentStep + 1
  · rw [if_pos hend]
    exact shouldContinue_done_of (executeStep outcome s) (by omega)
  · rw [if_neg hend]
    obtain ⟨stepInfo, hstep, hcomp⟩ := executeStep_marks_completed outcome s h
    rw [shouldContinue_at_succ (executeStep outcome s) s.currentStep hcs (by omega),
        hstep]
    simp [hcomp]

/-- Fuel `2d + 3` suffices for the loop to reach `END` from `execute_step`
when `d` steps remain, and the `execute_step` node is entered exactly
`max d 1` times on the way (once even when nothing remains, because the
graph edge into `execute_step` is unconditional). -/
lemma runLoop_exec_reaches_done (env : Nat → JsResult (List ContentItem)) :
    ∀ (d : Nat) (s : OrchestratorState) (count : Nat),
      s.executionPlan.steps.length - s.currentStep = d →
      ∃ sf, runLoop env (2 * d + 3) GraphNode.executeNode s count =
          some (count + max d 1, sf) ∧
        sf.executionPlan.steps.length = s.executionPlan.steps.length ∧
        sf.executionPlan.steps.length ≤ sf.currentStep := by
  intro d
  induction d with
  | zero =>
      intro s count hd
      have hge : s.executionPlan.steps.length ≤ s.currentStep := by omega
      have hid : executeStep (env s.currentStep) s = s :=
        executeStep_out_of_range _ _ (by omega)
      have hdec : shouldContinueExecution s = "done" := shouldContinue_done_of s hge
      refine ⟨s, ?_, rfl, hge⟩
      show runLoop env (2 + 1) GraphNode.executeNode s count = some (count + 1, s)
      rw [runLoop_exec_step env 2 s count, hid, hdec,
          if_neg (by decide), if_neg (by decide)]
      exact runLoop_synth env 0 s (count + 1)
  | succ d ih =>
      intro s count hd
      have hlt : s.currentStep < s.executionPlan.steps.length := by omega
      have hcs : (executeStep (env s.currentStep) s).currentStep = s.currentStep + 1 :=
        executeStep_currentStep _ _ hlt
      have hlen : (executeStep (env s.currentStep) s).executionPlan.steps.length =
          s.executionPlan.steps.length := executeStep_length _ _
      have hdec := shouldContinue_after_exec (env s.currentStep) s hlt
      by_cases hend : s.executionPlan.steps.length ≤ s.currentStep + 1
      · have hd0 : d = 0 := by omega
        subst hd0
        rw [if_pos hend] at hdec
        refine ⟨executeStep (env s.currentStep) s, ?_, hlen, by omega⟩
        show runLoop env (4 + 1) GraphNode.executeNode s count =
          some (count + 1, executeStep (env s.currentStep) s)
        rw [runLoop_exec_step env 4 s count, hdec,
            if_neg (by decide), if_neg (by decide)]
        exact runLoop_synth env 2 (executeStep (env s.currentStep) s) (count + 1)
      · rw [if_neg hend] at hdec
        have hd1 : 1 ≤ d := by omega
        have hd' : (executeStep (env s.currentStep) s).executionPlan.steps.length -
            (executeStep (env s.currentStep) s).currentStep = d := by omega
        obtain ⟨sf, hrun, hflen, hfcs⟩ := ih (executeStep (env s.currentStep) s)
          (count + 1) hd'
        refine ⟨sf, ?_, by rw [hflen, hlen], hfcs⟩
        show runLoop env (2 * (d + 1) + 2 + 1) GraphNode.executeNode s count =
          some (count + max (d + 1) 1, sf)
        rw [runLoop_exec_step env (2 * (d + 1) + 2) s count, hdec, if_pos rfl]
        show runLoop env (2 * d + 3 + 1) GraphNode.analyzeNode
          (executeStep (env s.currentStep) s) (count + 1) =
          some (count + max (d + 1) 1, sf)
        rw [runLoop_analyze_step env (2 * d + 3), hrun,
            max_eq_left (by omega : 1 ≤ d), max_eq_left (by omega : 1 ≤ d + 1)]
        congr 2
        omega


/-- Claim C2 (amended).  For every tool-call environment and every plan, the
loop started at `currentStep = 0` terminates in the done state after exactly
`max N 1` invocations of the `execute_step` node, where `N` is the number of
plan steps: exactly `N` invocations when `N ≥ 1`, but one (no-op) invocation
for an empty plan, because the edge from `plan_execution` into
`execute_step` is unconditional.  `currentStep` increases by one on every
invocation that finds `currentStep < N` (and only on those). -/
theorem orchestrator_loop_count (env : Nat → JsResult (List ContentItem))
    (plan : ExecutionPlan) :
    (∃ sf, runLoop env (2 * plan.steps.length + 3) GraphNode.executeNode
        { executionPlan := plan, currentStep := 0 } 0 =
          some (max plan.steps.length 1, sf) ∧
      sf.executionPlan.steps.length = plan.steps.length ∧
      sf.executionPlan.steps.length ≤ sf.currentStep) ∧
    (∀ (outcome : JsResult (List ContentItem)) (s : OrchestratorState),
      s.currentStep < s.executionPlan.steps.length →
        (executeStep outcome s).currentStep = s.currentStep + 1) := by
  constructor
  · obtain ⟨sf, h, hl, hc⟩ := runLoop_exec_reaches_done env plan.steps.length
      { executionPlan := plan, currentStep := 0 } 0 (by simp)
    exact ⟨sf, by simpa using h, hl, hc⟩
  · exact fun outcome s h => executeStep_currentStep outcome s h

/-- Witness for C2 at the concrete two-step plan: two execute transitions
before done, and the in-range invocation advances the index. -/
theorem orchestrator_loop_count_witness :
    (∃ sf, runLoop sampleEnv 7 GraphNode.executeNode sampleState 0 =
        some (2, sf) ∧
      sf.executionPlan.steps.length = 2 ∧
      sf.executionPlan.steps.length ≤ sf.currentStep) ∧
    (executeStep (JsResult.value []) sampleState).currentStep = 1 :=
  ⟨(orchestrator_loop_count sampleEnv sampleState.executionPlan).1,
   (orchestrator_loop_count sampleEnv sampleState.executionPlan).2
     (JsResult.value []) sampleState (by decide)⟩

/-- Counterexample for C2 as stated: for the empty plan (N = 0) the loop
still enters the `execute_step` node once — not zero times — and that
invocation leaves `currentStep` unchanged instead of strictly increasing
it. -/
theorem orchestrator_empty_plan_counterexample :
    runLoop sampleEnv 3 GraphNode.executeNode emptyPlanState 0 =
      some (1, emptyPlanState) ∧
    (1 : Nat) ≠ 0 ∧
    executeStep (sampleEnv 0) emptyPlanState = emptyPlanState := by
  refine ⟨by decide, by decide, by decide⟩

/-- Claim C7.  `getClient` is idempotent: when a connection is registered
under the name (and its probe succeeds — which it always does, since the
probe swallows failures), the very same client is returned, the registry is
unchanged and no fresh transport is set up; only when no connection is
registered does it attempt one fresh connection, and on handshake success
it registers the new client under the name and returns it. -/
theorem getClient_idempotent (env : ConnectEnv) (st : ManagerState)
    (serverName : String) (hrun : st.isShuttingDown = false) :
    (∀ c, st.clients.lookup serverName = some c →
       MCPClientManager.getClient env st serverName = (JsResult.value c, st, 0)) ∧
    (st.clients.lookup serverName = none → env.connectOk = true →
       MCPClientManager.getClient env st serverName =
         (JsResult.value { serverName := serverName, rpcListTools := env.freshRpcListTools },
          { st with clients := mapSet st.clients serverName { serverName := serverName, rpcListTools := env.freshRpcListTools } },
          1)) := by
  constructor
  · intro c hc
    obtain ⟨tools, htools⟩ := listTools_value c
    simp [MCPClientManager.getClient, hrun, hc, htools]
  · intro hn hok
    simp [MCPClientManager.getClient, MCPClientManager.connectNew, hrun, hn, hok]

/-- Witness for C7: the registered sample client is returned as-is with no
fresh transport, and a cold call registers the new client. -/
theorem getClient_idempotent_witness :
    MCPClientManager.getClient okConnectEnv sampleManager "crypto-mcp-server" =
      (JsResult.value sampleClient, sampleManager, 0) ∧
    MCPClientManager.getClient okConnectEnv sampleManager "news-mcp-server" =
      (JsResult.value { serverName := "news-mcp-server",
                        rpcListTools := JsResult.value ["get_financial_news"] },
       { clients := [("crypto-mcp-server", sampleClient),
                     ("news-mcp-server",
                      { serverName := "news-mcp-server",
                        rpcListTools := JsResult.value ["get_financial_news"] })],
         isShuttingDown := false },
       1) := by
  constructor
  · exact (getClient_idempotent okConnectEnv sampleManager "crypto-mcp-server"
      (by decide)).1 sampleClient (by decide)
  · have h := (getClient_idempotent okConnectEnv sampleManager "news-mcp-server"
      (by decide)).2 (by decide) (by decide)
    rw [h]
    decide

/-- Claim C8.  When no connection is registered under the name and the
handshake of the fresh attempt fails, `getClient` throws and the failed
client is not registered: the registry after the call is exactly the
registry before it. -/
theorem getClient_handshake_failure_not_registered (env : ConnectEnv)
    (st : ManagerState) (serverName : String)
    (hrun : st.isShuttingDown = false)
    (hnone : st.clients.lookup serverName = none)
    (hfail : env.connectOk = false) :
    MCPClientManager.getClient env st serverName =
      (JsResult.thrown ("Failed to connect to " ++ serverName), st, 1) := by
  simp [MCPClientManager.getClient, MCPClientManager.connectNew, hrun, hnone, hfail]

/-- Witness for C8: a failing cold connection attempt leaves the sample
registry untouched and surfaces the error. -/
theorem getClient_handshake_failure_not_registered_witness :
    MCPClientManager.getClient failConnectEnv sampleManager "news-mcp-server" =
      (JsResult.thrown "Failed to connect to news-mcp-server", sampleManager, 1) := by
  have h := getClient_handshake_failure_not_registered failConnectEnv sampleManager
    "news-mcp-server" (by decide) (by decide) (by decide)
  rw [h]
  decide

/-- Counterexample for C4 as stated: the registered client whose subprocess
is dead (its SDK-level discovery RPC throws) is reported as healthy — not
unhealthy — by `healthCheck`, and it is not evicted: the registry is
unchanged, so the claimed report-false-and-evict behavior is false at this
input. -/
theorem healthCheck_dead_client_counterexample :
    MCPClientManager.healthCheck deadManager =
      ([("crypto-mcp-server", true)], deadManager) ∧
    ¬ ((MCPClientManager.healthCheck deadManager).1 =
         [("crypto-mcp-server", false)] ∧
       (MCPClientManager.healthCheck deadManager).2.clients.lookup
         "crypto-mcp-server" = none) := by
  refine ⟨by decide, by decide⟩

/-- Claim C4 (amended).  `healthCheck` reports every registered connection
as healthy and evicts nothing: the discovery probe (`MCPClient.listTools`)
catches its own failures and returns an empty tool list, so the failure
branch of `healthCheck` is unreachable, and the registry after the call is
the registry before it. -/
theorem healthCheck_all_healthy_no_evict (st : ManagerState) :
    (MCPClientManager.healthCheck st).1 =
      st.clients.map (fun nc => (nc.1, true)) ∧
    (MCPClientManager.healthCheck st).2 = st := by
  constructor
  · show st.clients.map _ = st.clients.map _
    apply List.map_congr_left
    intro nc _
    obtain ⟨tools, htools⟩ := listTools_value nc.2
    simp [htools]
  · rfl


/-- Counterexample for C6 as stated: for an empty list of analysis results,
when the chat succeeds but its output fails to parse (the inner `catch`,
lines 233-252 of the source), the fallback summary's confidence is the JS
value `NaN` — the average `0 / 0` over zero results — and not 0.5. -/
theorem synthesizeResults_nan_counterexample :
    (CryptoAnalyzer.synthesizeResults SynthOutcome.parseFailed []).confidenceScore =
      JsNum.nan ∧
    JsNum.nan ≠ JsNum.num (1 / 2) := by
  refine ⟨by decide, by decide⟩

/-- Claim C6 (amended).  `synthesizeResults` returns a summary on every
path (both `catch` branches of the source return normally, which the
embedding records by its total codomain).  For an empty list of analysis
results: if the chat call throws, the outer fallback is the degenerate
summary with neutral sentiment, empty findings and confidence 0.5; if the
chat succeeds but its output fails to parse, the inner fallback has neutral
sentiment and empty findings but confidence `NaN` (JS `0 / 0`); and if
parsing succeeds, the parsed summary is returned as-is, whatever its
sentiment. -/
theorem synthesizeResults_empty_input :
    (∀ msg, CryptoAnalyzer.synthesizeResults (SynthOutcome.chatThrew msg) [] =
       { overallSentiment := Sentiment.neutral,
         keyFindings := [],
         recommendations := ["詳細な分析は失敗しましたが、個別の推奨事項を参照してください"],
         summary := "0銘柄の分析を実行しましたが、統合処理でエラーが発生しました。個別の分析結果を確認してください。",
         confidenceScore := JsNum.num (1 / 2) }) ∧
    ((CryptoAnalyzer.synthesizeResults SynthOutcome.parseFailed []).overallSentiment =
       Sentiment.neutral ∧
     (CryptoAnalyzer.synthesizeResults SynthOutcome.parseFailed []).keyFindings = [] ∧
     (CryptoAnalyzer.synthesizeResults SynthOutcome.parseFailed []).confidenceScore =
       JsNum.nan) ∧
    (∀ (summary : AnalysisSummary) (analysisResults : List CryptoAnalysis),
       CryptoAnalyzer.synthesizeResults (SynthOutcome.parsed summary)
         analysisResults = summary) := by
  refine ⟨fun msg => rfl, ⟨by decide, by decide, by decide⟩, fun _ _ => rfl⟩

